import Mathlib

/-!
Verification of the chef-ranker scoring engine and monthly snapshot pipeline.

The definitions below are a shallow embedding of `src/lib/scoring.ts`
(`getWeights`, `scoreMichelinStars`, `scoreAccoladeType`, `calculateBreakdown`,
`calculateTotalScore`, `recalculateAllScores`, `createMonthlySnapshot`) and of
the `POST /api/snapshots` handler.  JavaScript numbers are modelled as exact
rationals (`ℚ`), JavaScript `Date` values as a (year, position-within-year)
pair ordered lexicographically (millisecond order; `setFullYear(y - 10)` keeps
the position within the year), and the Prisma store as explicit lists.
`Array.prototype.sort` is stable (ES2019), so its result coincides with
sorting by the pair (comparator, original index); the embedding tags each
element with its fetch index and sorts by that lexicographic order.
-/

namespace ChefRanker

/-- Models `Math.round(q * 10) / 10`: JavaScript `Math.round` rounds half toward +∞,
i.e. `Math.round x = ⌊x + 1/2⌋`. -/
def round1 (q : ℚ) : ℚ := (⌊q * 10 + 1/2⌋ : ℚ) / 10

/-- A JavaScript `Date`: the calendar year plus the position inside the year
(an abstract stand-in for month/day/ms), compared lexicographically. -/
structure JSDate where
  year : ℤ
  sub : ℤ
deriving DecidableEq, Repr

/-- Models `d1 <= d2` on `Date` values (comparison of millisecond timestamps). -/
def jsDateLe (d1 d2 : JSDate) : Bool :=
  decide (d1.year < d2.year) || (d1.year == d2.year && decide (d1.sub ≤ d2.sub))

/-- Whitespace skipped by JavaScript `parseInt`. -/
def isJsSpace (c : Char) : Bool :=
  [' ', '\t', '\x0a', '\x0b', '\x0c', '\x0d'].contains c

/-- Value of a hexadecimal digit character, `none` otherwise (code points:
48-57 are 0-9, 97-102 are a-f, 65-70 are A-F). -/
def hexVal (c : Char) : Option ℕ :=
  let n := c.toNat
  if 48 ≤ n && n ≤ 57 then some (n - 48)
  else if 97 ≤ n && n ≤ 102 then some (n - 87)
  else if 65 ≤ n && n ≤ 70 then some (n - 55)
  else none

/-- Accumulate digit characters in the given base. -/
def digitsVal (base : ℕ) (ds : List Char) : ℕ :=
  ds.foldl (fun n c => n * base + (hexVal c).getD 0) 0

/-- JavaScript `parseInt(s)` (radix unspecified): skip whitespace, optional
sign, `0x`/`0X` switches to base 16, then the longest run of digits; `none`
models `NaN`. -/
def jsParseInt (s : String) : Option ℤ :=
  let l0 := s.data.dropWhile isJsSpace
  let sign : ℤ := match l0 with | '-' :: _ => -1 | _ => 1
  let l1 : List Char := match l0 with | '-' :: t => t | '+' :: t => t | _ => l0
  let p : ℕ × List Char := match l1 with
    | '0' :: 'x' :: t => (16, t)
    | '0' :: 'X' :: t => (16, t)
    | _ => (10, l1)
  let ds := p.2.takeWhile (fun c => ((hexVal c).getD 16 < p.1 : Bool))
  if ds.isEmpty then none else some (sign * (digitsVal p.1 ds : ℤ))

/-- Predicate `startsWithChars pat l`: `l` starts with the pattern `pat`. -/
def startsWithChars : List Char → List Char → Bool
  | [], _ => true
  | _ :: _, [] => false
  | p :: ps, c :: cs => p == c && startsWithChars ps cs

/-- Predicate `containsChars pat l`: some suffix of `l` starts with `pat`. -/
def containsChars (pat : List Char) (l : List Char) : Bool :=
  match l with
  | [] => startsWithChars pat []
  | _ :: cs => startsWithChars pat l || containsChars pat cs

/-- Regex fragment `owner` reachable through `.*` (no newline may be
consumed by `.`). -/
def ownerAfter : List Char → Bool
  | [] => false
  | c :: cs => startsWithChars ['o','w','n','e','r'] (c :: cs) || (!(c == '\x0a') && ownerAfter cs)

/-- Regex fragment `chef.*owner` tested at every position. -/
def chefThenOwner : List Char → Bool
  | [] => false
  | c :: cs =>
    (startsWithChars ['c','h','e','f'] (c :: cs) && ownerAfter (cs.drop 3)) || chefThenOwner cs

/-- Models `/chef.*owner|executive|head chef|chef de cuisine/i.test(role)`. -/
def execRoleTest (role : String) : Bool :=
  let s := role.data.map Char.toLower
  chefThenOwner s || containsChars "executive".data s ||
    containsChars "head chef".data s || containsChars "chef de cuisine".data s

/-! ## Data model (src/types/index.ts, prisma schema) -/

structure Accolade where
  type : String
  detail : Option String
  year : Option ℤ
  createdAt : JSDate
deriving DecidableEq, Repr

structure CareerEntry where
  isCurrent : Bool
  startYear : Option ℤ
  endYear : Option ℤ
  role : String
  createdAt : JSDate
deriving DecidableEq, Repr

structure PublicSignal where
  platform : String
  value : Option ℚ
  createdAt : JSDate
deriving DecidableEq, Repr

structure PeerStanding where
  type : String
  createdAt : JSDate
deriving DecidableEq, Repr

/-- The record set of one chef as consumed by `calculateBreakdown`. -/
structure ChefRecords where
  accolades : List Accolade
  careerEntries : List CareerEntry
  publicSignals : List PublicSignal
  peerStandings : List PeerStanding
  yearsExperience : Option ℤ
deriving DecidableEq, Repr

structure ScoreBreakdown where
  formalAccolades : ℚ
  careerTrack : ℚ
  publicSignals : ℚ
  peerStanding : ℚ
deriving DecidableEq, Repr

structure ScoringWeights where
  formalAccolades : ℚ
  careerTrack : ℚ
  publicSignals : ℚ
  peerStanding : ℚ
deriving DecidableEq, Repr

/-- Models `DEFAULT_WEIGHTS` from src/types/index.ts. -/
def DEFAULT_WEIGHTS : ScoringWeights :=
  { formalAccolades := 0.35, careerTrack := 0.25, publicSignals := 0.15, peerStanding := 0.25 }

/-- One `ScoringWeight` row. -/
structure WeightRow where
  category : String
  weight : ℚ
deriving DecidableEq, Repr

/-- Models `(weights as Record<string, number>)[category] = w` for the four real
keys; other categories leave the record unchanged. -/
def setWeight (w : ScoringWeights) (category : String) (v : ℚ) : ScoringWeights :=
  match category with
  | "formalAccolades" => { w with formalAccolades := v }
  | "careerTrack" => { w with careerTrack := v }
  | "publicSignals" => { w with publicSignals := v }
  | "peerStanding" => { w with peerStanding := v }
  | _ => w

/-- Models `getWeights` over the fetched `ScoringWeight` rows: start from the
defaults and overwrite each category that has a row. -/
def getWeights (rows : List WeightRow) : ScoringWeights :=
  if rows.isEmpty then DEFAULT_WEIGHTS
  else rows.foldl (fun w row => setWeight w row.category row.weight) DEFAULT_WEIGHTS

/-! ## Scoring (src/lib/scoring.ts) -/

/-- Models `parseInt(m.detail || "1")` for one Michelin accolade. -/
def starsOf (a : Accolade) : Option ℤ :=
  jsParseInt (match a.detail with
    | some s => if s == "" then "1" else s
    | none => "1")

/-- Score of one Michelin accolade inside the loop of `scoreMichelinStars`. -/
def michelinOne (a : Accolade) : ℚ :=
  if starsOf a == some 3 then 100 else if starsOf a == some 2 then 70 else 40

/-- The `best` accumulator loop of `scoreMichelinStars`. -/
def bestMichelin (michelin : List Accolade) : ℚ :=
  michelin.foldl (fun best m => max best (michelinOne m)) 0

/-- Models `scoreMichelinStars`. -/
def scoreMichelinStars (accolades : List Accolade) : ℚ :=
  let michelin := accolades.filter (fun a => a.type == "MICHELIN_STAR")
  if michelin.length == 0 then 0
  else bestMichelin michelin

/-- Models `scoreAccoladeType`. -/
def scoreAccoladeType (accolades : List Accolade) (type : String) (maxScore : ℚ) : ℚ :=
  if accolades.any (fun a => a.type == type) then maxScore else 0

/-- Accolade window filter: `a.year ? a.year >= cutoffYear : a.createdAt >= cutoffDate`
(`year === 0` is falsy). -/
def accoladeRecent (cutoffYear : ℤ) (cutoffDate : JSDate) (a : Accolade) : Bool :=
  match a.year with
  | some y => if y == 0 then jsDateLe cutoffDate a.createdAt else decide (cutoffYear ≤ y)
  | none => jsDateLe cutoffDate a.createdAt

/-- Career window filter: `c.isCurrent || (c.startYear && c.startYear >= cutoffYear)
|| (c.endYear && c.endYear >= cutoffYear) || c.createdAt >= cutoffDate`. -/
def careerRecent (cutoffYear : ℤ) (cutoffDate : JSDate) (c : CareerEntry) : Bool :=
  c.isCurrent ||
  (match c.startYear with | some y => !(y == 0) && decide (cutoffYear ≤ y) | none => false) ||
  (match c.endYear with | some y => !(y == 0) && decide (cutoffYear ≤ y) | none => false) ||
  jsDateLe cutoffDate c.createdAt

/-- Raw formal-accolades score: best headline accolade plus multiplicity
bonus plus 0.3 of the OTHER score, capped at 100. -/
def formalAccoladesRaw (recent : List Accolade) : ℚ :=
  min 100 (max (max (max (scoreMichelinStars recent)
        (scoreAccoladeType recent "JAMES_BEARD" 80))
        (scoreAccoladeType recent "WORLDS_50_BEST" 90))
        (scoreAccoladeType recent "BOCUSE_DOR" 85) +
    (if 1 < recent.length then min 20 (((recent.length - 1 : ℕ) : ℚ) * 5) else 0) +
    scoreAccoladeType recent "OTHER" 30 * 0.3)

/-- Raw career-track score: year score, position score and role score,
capped at 100. -/
def careerTrackRaw (years : ℚ) (recent : List CareerEntry) : ℚ :=
  min 100 (min 40 (years * 2) + min 30 ((recent.length : ℚ) * 6) +
    (if recent.any (fun c => execRoleTest c.role) then 30 else 15))

/-- Raw public-signals score: 15 per signal plus a value term capped at 50,
capped at 100. -/
def publicSignalsRaw (recent : List PublicSignal) : ℚ :=
  min 100 ((recent.length : ℚ) * 15 +
    min 50 ((recent.foldl (fun sum s => sum + s.value.getD 0) 0) / 10000))

/-- Raw peer-standing score: 10 per row plus typed bonuses, capped at 100. -/
def peerStandingRaw (recent : List PeerStanding) : ℚ :=
  min 100 ((recent.length : ℚ) * 10 +
    (((recent.filter (fun p => p.type == "MENTORED")).length : ℚ)) * 15 +
    (((recent.filter (fun p => p.type == "COLLABORATION")).length : ℚ)) * 10 +
    (((recent.filter (fun p => p.type == "ENDORSEMENT")).length : ℚ)) * 12)

/-- Models `calculateBreakdown`.  The source reads the clock through `new Date()`;
here that hidden input is the explicit parameter `now`.  `years` models
`chef.yearsExperience || 0`. -/
def calculateBreakdown (now : JSDate) (chef : ChefRecords) : ScoreBreakdown :=
  let cutoffYear : ℤ := now.year - 10
  let cutoffDate : JSDate := { now with year := now.year - 10 }
  { formalAccolades :=
      round1 (formalAccoladesRaw (chef.accolades.filter (accoladeRecent cutoffYear cutoffDate)))
    careerTrack :=
      round1 (careerTrackRaw ((chef.yearsExperience.getD 0 : ℤ) : ℚ)
        (chef.careerEntries.filter (careerRecent cutoffYear cutoffDate)))
    publicSignals :=
      round1 (publicSignalsRaw
        (chef.publicSignals.filter (fun s => jsDateLe cutoffDate s.createdAt)))
    peerStanding :=
      round1 (peerStandingRaw
        (chef.peerStandings.filter (fun p => jsDateLe cutoffDate p.createdAt))) }

/-- Models `calculateTotalScore`. -/
def calculateTotalScore (breakdown : ScoreBreakdown) (weights : ScoringWeights) : ℚ :=
  round1 (breakdown.formalAccolades * weights.formalAccolades +
    breakdown.careerTrack * weights.careerTrack +
    breakdown.publicSignals * weights.publicSignals +
    breakdown.peerStanding * weights.peerStanding)

/-! ## Score recalculation batch (`recalculateAllScores`) -/

/-- A chef row: id, archived flag, the record set consumed by scoring, and
the two derived columns written back by the batch. -/
structure Chef where
  id : String
  isArchived : Bool
  records : ChefRecords
  totalScore : ℚ
  rank : Option ℕ
deriving DecidableEq, Repr

/-- Models `prisma.chef.findMany({ where: { isArchived: false } })`: the non-archived
chefs in stable fetch order. -/
def activeChefs (chefs : List Chef) : List Chef :=
  chefs.filter (fun c => !c.isArchived)

/-- One element of the `scored` array, tagged with its pre-sort fetch index
(the tag realises the stability of `Array.prototype.sort`). -/
structure Scored where
  id : String
  total : ℚ
  breakdown : ScoreBreakdown
  idx : ℕ
deriving DecidableEq, Repr

/-- Models `chefs.map(chef => ({ id, total, breakdown }))`, each element tagged with
its fetch index. -/
def scoredOf (w : ScoringWeights) (t : JSDate) (chefs : List Chef) : List Scored :=
  chefs.enum.map (fun p =>
    let breakdown := calculateBreakdown t p.2.records
    { id := p.2.id, total := calculateTotalScore breakdown w,
      breakdown := breakdown, idx := p.1 })

/-- Models `scored.sort((a, b) => b.total - a.total)` as a stable sort: order by
total descending, ties by the original index. -/
def leScored (a b : Scored) : Bool :=
  decide (b.total < a.total) || (decide (a.total = b.total) && decide (a.idx ≤ b.idx))

/-- A scored chef with its assigned dense rank (`i + 1`). -/
structure Ranked where
  id : String
  total : ℚ
  breakdown : ScoreBreakdown
  idx : ℕ
  rank : ℕ
deriving DecidableEq, Repr

/-- The rank assignment computed by `recalculateAllScores`: sort the scored
chefs, then give position `i` the rank `i + 1`. -/
def rankingOf (w : ScoringWeights) (t : JSDate) (chefs : List Chef) : List Ranked :=
  ((scoredOf w t chefs).mergeSort leScored).enum.map (fun p =>
    { id := p.2.id, total := p.2.total, breakdown := p.2.breakdown,
      idx := p.2.idx, rank := p.1 + 1 })

/-- Models `prisma.chef.update({ where: { id }, data: { totalScore, rank } })` for
one chef: archived chefs are never in the batch; a non-archived chef receives
the total and rank computed for its id. -/
def applyRanking (rk : List Ranked) (c : Chef) : Chef :=
  if c.isArchived then c
  else match rk.find? (fun r => r.id == c.id) with
    | some r => { c with totalScore := r.total, rank := some r.rank }
    | none => c

/-- Models `recalculateAllScores` over the chef table: score and re-rank every
non-archived chef, writing `totalScore` and `rank` back in place. -/
def recalcChefs (w : ScoringWeights) (t : JSDate) (chefs : List Chef) : List Chef :=
  chefs.map (applyRanking (rankingOf w t (activeChefs chefs)))

/-! ## Monthly snapshots (`createMonthlySnapshot`, `POST /api/snapshots`) -/

structure Snapshot where
  id : ℕ
  month : String
  notes : Option String
  publishedAt : Option JSDate
deriving DecidableEq, Repr

structure SnapEntry where
  snapshotId : ℕ
  chefId : String
  rank : ℕ
  totalScore : ℚ
  breakdown : ScoreBreakdown
  delta : Option ℤ
deriving DecidableEq, Repr

/-- The persistent store: chef table, snapshot table, snapshot-entry table,
and the next fresh snapshot id. -/
structure DB where
  chefs : List Chef
  snapshots : List Snapshot
  entries : List SnapEntry
  nextId : ℕ
deriving DecidableEq, Repr

def recalcDB (w : ScoringWeights) (t : JSDate) (db : DB) : DB :=
  { db with chefs := recalcChefs w t db.chefs }

/-- One step of scanning for the snapshot with the greatest month. -/
def pickBetter (acc : Option Snapshot) (s : Snapshot) : Option Snapshot :=
  match acc with
  | none => some s
  | some a => if a.month < s.month then some s else acc

/-- Models `findFirst({ where: { month: { lt: month } }, orderBy: { month: "desc" } })`:
the stored snapshot with the greatest month below the target. -/
def bestPrev (snaps : List Snapshot) (month : String) : Option Snapshot :=
  (snaps.filter (fun s => decide (s.month < month))).foldl pickBetter none

/-- The entries of the immediately preceding snapshot (empty when none). -/
def prevEntries (db : DB) (month : String) : List SnapEntry :=
  match bestPrev db.snapshots month with
  | some s => db.entries.filter (fun e => e.snapshotId == s.id)
  | none => []

/-- The `prevRankMap` lookup: the map is filled by iterating the entries, so
the last entry for a chef id wins. -/
def lookupRank (es : List SnapEntry) (cid : String) : Option ℕ :=
  (es.reverse.find? (fun e => e.chefId == cid)).map (fun e => e.rank)

/-- Models `prisma.monthlySnapshot.upsert({ where: { month }, update, create })`. -/
def upsertSnapshot (month : String) (notes : Option String) (t : JSDate) (db : DB) : ℕ × DB :=
  match db.snapshots.find? (fun s => s.month == month) with
  | some s =>
    (s.id, { db with snapshots := db.snapshots.map (fun x =>
      if x.month == month then { x with notes := notes, publishedAt := some t } else x) })
  | none =>
    (db.nextId, { db with
      snapshots := db.snapshots ++ [⟨db.nextId, month, notes, some t⟩],
      nextId := db.nextId + 1 })

/-- JavaScript truthiness of an optional rank (`0` and `null` are falsy). -/
def truthyRank : Option ℕ → Bool
  | none => false
  | some n => !(n == 0)

/-- The snapshot entry written for one chef:
`delta = prevRank && chef.rank ? prevRank - chef.rank : null`. -/
def snapEntryFor (sid : ℕ) (prevE : List SnapEntry) (w : ScoringWeights) (t : JSDate)
    (c : Chef) : SnapEntry :=
  let breakdown := calculateBreakdown t c.records
  let prevRank := lookupRank prevE c.id
  { snapshotId := sid, chefId := c.id, rank := c.rank.getD 0,
    totalScore := calculateTotalScore breakdown w, breakdown := breakdown,
    delta := if truthyRank prevRank && truthyRank c.rank then
        some ((prevRank.getD 0 : ℤ) - (c.rank.getD 0 : ℤ))
      else none }

/-- Models `findMany({ where: { isArchived: false }, orderBy: { rank: "asc" } })`. -/
def chefsByRank (chefs : List Chef) : List Chef :=
  (activeChefs chefs).mergeSort (fun a b => decide (a.rank.getD 0 ≤ b.rank.getD 0))

/-- Models `createMonthlySnapshot`: recalculate, fetch ranked chefs, look up the
prior snapshot, upsert the snapshot row, delete its old entries, write one
entry per chef; returns the snapshot id and the new store. -/
def createMonthlySnapshot (month : String) (notes : Option String)
    (w : ScoringWeights) (t : JSDate) (db : DB) : ℕ × DB :=
  let db1 := recalcDB w t db
  let chefs := chefsByRank db1.chefs
  let prevE := prevEntries db1 month
  let p := upsertSnapshot month notes t db1
  let remaining := p.2.entries.filter (fun e => !(e.snapshotId == p.1))
  let newEntries := chefs.map (snapEntryFor p.1 prevE w t)
  (p.1, { p.2 with entries := remaining ++ newEntries })

/-- Models `month` matches `^\d{4}-\d{2}$`. -/
def isValidMonth (s : String) : Bool :=
  match s.data with
  | [y1, y2, y3, y4, d, m1, m2] =>
    y1.isDigit && y2.isDigit && y3.isDigit && y4.isDigit &&
      d == '-' && m1.isDigit && m2.isDigit
  | _ => false

/-- Models `POST /api/snapshots`: reject a missing or malformed `month` with a 400
before touching the store, otherwise run `createMonthlySnapshot`. -/
def postSnapshots (bodyMonth : Option String) (notes : Option String)
    (w : ScoringWeights) (t : JSDate) (db : DB) : Except String ℕ × DB :=
  match bodyMonth with
  | none => (Except.error "Invalid month format. Use YYYY-MM.", db)
  | some month =>
    if month == "" || !isValidMonth month then
      (Except.error "Invalid month format. Use YYYY-MM.", db)
    else
      let p := createMonthlySnapshot month notes w t db
      (Except.ok p.1, p.2)

/-! ## Statement-side definitions and concrete fixtures -/

/-- Michelin component as the specification words it: 100 if any filtered
Michelin accolade has a detail containing the character 3, 70 for 2, else 40
when any Michelin star is present.  Used only to compare the spec sentence
against the source behaviour. -/
def michelinScoreClaim (accolades : List Accolade) : ℚ :=
  let michelin := accolades.filter (fun a => a.type == "MICHELIN_STAR")
  if michelin.any (fun a => containsChars ['3'] (a.detail.getD "").data) then 100
  else if michelin.any (fun a => containsChars ['2'] (a.detail.getD "").data) then 70
  else if michelin.isEmpty then 0 else 40

/-- Weight of the last stored row for a category, or the given default. -/
def lastWeight (rows : List WeightRow) (cat : String) (d : ℚ) : ℚ :=
  match rows.reverse.find? (fun r => r.category == cat) with
  | some r => r.weight
  | none => d

/-- All four breakdown fields lie in the closed interval [0, 100]. -/
def breakdownInRange (b : ScoreBreakdown) : Prop :=
  (0 ≤ b.formalAccolades ∧ b.formalAccolades ≤ 100) ∧
  (0 ≤ b.careerTrack ∧ b.careerTrack ≤ 100) ∧
  (0 ≤ b.publicSignals ∧ b.publicSignals ≤ 100) ∧
  (0 ≤ b.peerStanding ∧ b.peerStanding ≤ 100)

/-- A record set with a negative stored years-of-experience value. -/
def chefRecNegYears : ChefRecords :=
  { accolades := [], careerEntries := [], publicSignals := [], peerStandings := [],
    yearsExperience := some (-100) }

/-- A record set with one OTHER accolade dated 2016, used to exhibit the
dependence of `calculateBreakdown` on the evaluation time. -/
def chefRecOther : ChefRecords :=
  { accolades := [⟨"OTHER", none, some 2016, ⟨2016, 0⟩⟩], careerEntries := [],
    publicSignals := [], peerStandings := [], yearsExperience := none }

/-- A Michelin accolade whose detail contains the character 3 but whose
leading integer is 13. -/
def accolade13 : Accolade := ⟨"MICHELIN_STAR", some "13", none, ⟨2024, 0⟩⟩

/-- A record set with no records at all. -/
def chefRecEmpty : ChefRecords :=
  { accolades := [], careerEntries := [], publicSignals := [], peerStandings := [],
    yearsExperience := none }

/-- A populated record set used as a witness input. -/
def chefRecW : ChefRecords :=
  { accolades := [⟨"MICHELIN_STAR", some "2", some 2020, ⟨2020, 10⟩⟩,
                  ⟨"JAMES_BEARD", none, none, ⟨2021, 5⟩⟩],
    careerEntries := [⟨true, some 2015, none, "Executive Chef", ⟨2019, 3⟩⟩],
    publicSignals := [⟨"INSTAGRAM", some 250000, ⟨2023, 1⟩⟩],
    peerStandings := [⟨"MENTORED", ⟨2022, 7⟩⟩],
    yearsExperience := some 12 }

/-- A fixed evaluation time used by the witnesses. -/
def tW : JSDate := ⟨2025, 40⟩

/-- An empty store. -/
def dbEmpty : DB := { chefs := [], snapshots := [], entries := [], nextId := 0 }

/-- A concrete non-archived chef. -/
def chefA : Chef :=
  { id := "a", isArchived := false, records := chefRecW, totalScore := 0, rank := none }

/-- A second concrete non-archived chef. -/
def chefB : Chef :=
  { id := "b", isArchived := false, records := chefRecEmpty, totalScore := 0, rank := none }

/-- A store with one chef and one published prior snapshot that ranked the
chef fifth. -/
def dbW3 : DB :=
  { chefs := [chefA],
    snapshots := [⟨0, "2024-04", none, none⟩],
    entries := [⟨0, "a", 5, 10, ⟨0, 0, 0, 0⟩, none⟩],
    nextId := 1 }

/-- A store with one chef and no snapshots yet. -/
def dbW6 : DB := { chefs := [chefA], snapshots := [], entries := [], nextId := 0 }

/-! ## Helper lemmas -/

theorem round1_mono {q r : ℚ} (h : q ≤ r) : round1 q ≤ round1 r := by
  unfold round1
  have hf : (⌊q * 10 + 1/2⌋ : ℤ) ≤ ⌊r * 10 + 1/2⌋ := Int.floor_le_floor (by linarith)
  have hc : ((⌊q * 10 + 1/2⌋ : ℤ) : ℚ) ≤ ((⌊r * 10 + 1/2⌋ : ℤ) : ℚ) := by exact_mod_cast hf
  linarith

theorem floor_intCast_add_aux (z : ℤ) (r : ℚ) : ⌊((z : ℤ) : ℚ) + r⌋ = z + ⌊r⌋ := by
  rw [add_comm, Int.floor_add_int, add_comm]

theorem round1_intCast (n : ℤ) : round1 ((n : ℤ) : ℚ) = ((n : ℤ) : ℚ) := by
  unfold round1
  have h1 : ((n : ℤ) : ℚ) * 10 + 1/2 = ((10 * n : ℤ) : ℚ) + 1/2 := by push_cast; ring
  have h2 : (⌊((n : ℤ) : ℚ) * 10 + 1/2⌋ : ℤ) = 10 * n := by
    rw [h1, floor_intCast_add_aux]
    norm_num
  rw [h2]
  push_cast
  ring

theorem round1_nonneg {q : ℚ} (h : 0 ≤ q) : 0 ≤ round1 q := by
  have h0 : round1 ((0 : ℤ) : ℚ) = ((0 : ℤ) : ℚ) := round1_intCast 0
  have hm := round1_mono (q := ((0 : ℤ) : ℚ)) (r := q) (by exact_mod_cast h)
  rw [h0] at hm
  exact_mod_cast hm

theorem round1_le_100 {q : ℚ} (h : q ≤ 100) : round1 q ≤ 100 := by
  have h0 : round1 ((100 : ℤ) : ℚ) = ((100 : ℤ) : ℚ) := round1_intCast 100
  have hm := round1_mono (q := q) (r := ((100 : ℤ) : ℚ)) (by exact_mod_cast h)
  rw [h0] at hm
  exact_mod_cast hm

theorem intCast_le_round1 {n : ℤ} {q : ℚ} (h : ((n : ℤ) : ℚ) ≤ q) :
    ((n : ℤ) : ℚ) ≤ round1 q := by
  have h0 : round1 ((n : ℤ) : ℚ) = ((n : ℤ) : ℚ) := round1_intCast n
  have hm := round1_mono h
  rw [h0] at hm
  exact hm

theorem michelinOne_nonneg (a : Accolade) : 0 ≤ michelinOne a := by
  unfold michelinOne
  split_ifs <;> norm_num

theorem michelinOne_le_100 (a : Accolade) : michelinOne a ≤ 100 := by
  unfold michelinOne
  split_ifs <;> norm_num

theorem foldl_max_michelin (l : List Accolade) :
    ∀ b : ℚ, 0 ≤ b →
      l.foldl (fun best m => max best (michelinOne m)) b = max b (bestMichelin l) := by
  induction l with
  | nil =>
    intro b hb
    simp [bestMichelin, max_eq_left hb]
  | cons a l ih =>
    intro b hb
    have hba : 0 ≤ max b (michelinOne a) := le_trans hb (le_max_left _ _)
    have h0a : 0 ≤ max 0 (michelinOne a) := le_max_left _ _
    have hl : List.foldl (fun best m => max best (michelinOne m)) (max b (michelinOne a)) l
        = max (max b (michelinOne a)) (bestMichelin l) := ih _ hba
    have hr : bestMichelin (a :: l) = max (max 0 (michelinOne a)) (bestMichelin l) := by
      unfold bestMichelin
      simpa using ih _ h0a
    simp only [List.foldl_cons, hl, hr, max_eq_right (michelinOne_nonneg a)]
    rw [max_assoc]

theorem bestMichelin_cons (a : Accolade) (l : List Accolade) :
    bestMichelin (a :: l) = max (michelinOne a) (bestMichelin l) := by
  have h2 : bestMichelin (a :: l) = max (max 0 (michelinOne a)) (bestMichelin l) :=
    foldl_max_michelin l (max 0 (michelinOne a)) (le_max_left _ _)
  rw [h2, max_eq_right (michelinOne_nonneg a)]

theorem bestMichelin_spec (l : List Accolade) :
    bestMichelin l =
      if l.any (fun a => starsOf a == some 3) then 100
      else if l.any (fun a => starsOf a == some 2) then 70
      else if l.isEmpty then 0 else 40 := by
  induction l with
  | nil => simp [bestMichelin]
  | cons a l ih =>
    rw [bestMichelin_cons, ih]
    simp only [List.any_cons, List.isEmpty_cons, Bool.false_eq_true, if_false]
    cases h3 : (starsOf a == some 3) with
    | true =>
      have hm : michelinOne a = 100 := by unfold michelinOne; rw [h3]; simp
      rw [hm]
      simp only [Bool.true_or, if_true]
      split_ifs <;> norm_num [max_def]
    | false =>
      cases h2 : (starsOf a == some 2) with
      | true =>
        have hm : michelinOne a = 70 := by unfold michelinOne; rw [h3, h2]; simp
        rw [hm]
        simp only [Bool.false_or, Bool.true_or, if_true]
        split_ifs <;> norm_num [max_def]
      | false =>
        have hm : michelinOne a = 40 := by unfold michelinOne; rw [h3, h2]; simp
        rw [hm]
        simp only [Bool.false_or]
        split_ifs <;> norm_num [max_def]

theorem scoreMichelinStars_eq (accolades : List Accolade) :
    scoreMichelinStars accolades =
      (if (accolades.filter (fun a => a.type == "MICHELIN_STAR")).any
          (fun a => starsOf a == some 3) then 100
      else if (accolades.filter (fun a => a.type == "MICHELIN_STAR")).any
          (fun a => starsOf a == some 2) then 70
      else if (accolades.filter (fun a => a.type == "MICHELIN_STAR")).isEmpty then 0
      else 40) := by
  simp only [scoreMichelinStars]
  cases hempty : accolades.filter (fun a => a.type == "MICHELIN_STAR") with
  | nil => simp
  | cons x xs => simp [bestMichelin_spec]

theorem scoreMichelinStars_nonneg (l : List Accolade) : 0 ≤ scoreMichelinStars l := by
  rw [scoreMichelinStars_eq]
  split_ifs <;> norm_num

theorem scoreAccoladeType_nonneg (l : List Accolade) (ty : String) {m : ℚ} (h : 0 ≤ m) :
    0 ≤ scoreAccoladeType l ty m := by
  unfold scoreAccoladeType
  split_ifs
  · exact h
  · exact le_refl 0

theorem formalAccoladesRaw_bounds (recent : List Accolade) :
    0 ≤ formalAccoladesRaw recent ∧ formalAccoladesRaw recent ≤ 100 := by
  unfold formalAccoladesRaw
  constructor
  · refine le_min (by norm_num) ?_
    have h1 : (0:ℚ) ≤ max (max (max (scoreMichelinStars recent)
        (scoreAccoladeType recent "JAMES_BEARD" 80))
        (scoreAccoladeType recent "WORLDS_50_BEST" 90))
        (scoreAccoladeType recent "BOCUSE_DOR" 85) :=
      le_trans (scoreMichelinStars_nonneg recent)
        (le_trans (le_max_left _ _) (le_trans (le_max_left _ _) (le_max_left _ _)))
    have h2 : (0:ℚ) ≤ (if 1 < recent.length then
        min 20 (((recent.length - 1 : ℕ) : ℚ) * 5) else 0) := by
      split_ifs
      · exact le_min (by norm_num) (by positivity)
      · exact le_refl 0
    have h3 : (0:ℚ) ≤ scoreAccoladeType recent "OTHER" 30 * 0.3 :=
      mul_nonneg (scoreAccoladeType_nonneg recent "OTHER" (by norm_num)) (by norm_num)
    linarith
  · exact min_le_left _ _

theorem careerTrackRaw_bounds {years : ℚ} (recent : List CareerEntry) (h : 0 ≤ years) :
    15 ≤ careerTrackRaw years recent ∧ careerTrackRaw years recent ≤ 100 := by
  unfold careerTrackRaw
  constructor
  · refine le_min (by norm_num) ?_
    have h1 : (0:ℚ) ≤ min 40 (years * 2) := le_min (by norm_num) (by positivity)
    have h2 : (0:ℚ) ≤ min 30 ((recent.length : ℚ) * 6) := le_min (by norm_num) (by positivity)
    have h3 : (15:ℚ) ≤ (if recent.any (fun c => execRoleTest c.role) then 30 else 15) := by
      split_ifs <;> norm_num
    linarith
  · exact min_le_left _ _

theorem foldl_value_nonneg (l : List PublicSignal) (h : ∀ s ∈ l, 0 ≤ s.value.getD 0) :
    ∀ acc : ℚ, 0 ≤ acc → 0 ≤ l.foldl (fun sum s => sum + s.value.getD 0) acc := by
  induction l with
  | nil => intro acc hacc; simpa using hacc
  | cons s l ih =>
    intro acc hacc
    have hs : 0 ≤ s.value.getD 0 := h s (List.mem_cons_self s l)
    have hl : ∀ x ∈ l, 0 ≤ x.value.getD 0 := fun x hx => h x (List.mem_cons_of_mem s hx)
    simpa using ih hl (acc + s.value.getD 0) (by linarith)

theorem publicSignalsRaw_bounds (recent : List PublicSignal)
    (h : ∀ s ∈ recent, 0 ≤ s.value.getD 0) :
    0 ≤ publicSignalsRaw recent ∧ publicSignalsRaw recent ≤ 100 := by
  unfold publicSignalsRaw
  constructor
  · refine le_min (by norm_num) ?_
    have h1 : (0:ℚ) ≤ (recent.length : ℚ) * 15 := by positivity
    have h2 : (0:ℚ) ≤ recent.foldl (fun sum s => sum + s.value.getD 0) 0 :=
      foldl_value_nonneg recent h 0 (le_refl 0)
    have h3 : (0:ℚ) ≤ min 50 ((recent.foldl (fun sum s => sum + s.value.getD 0) 0) / 10000) :=
      le_min (by norm_num) (by positivity)
    linarith
  · exact min_le_left _ _

theorem peerStandingRaw_bounds (recent : List PeerStanding) :
    0 ≤ peerStandingRaw recent ∧ peerStandingRaw recent ≤ 100 := by
  unfold peerStandingRaw
  constructor
  · refine le_min (by norm_num) ?_
    positivity
  · exact min_le_left _ _

/-! ## Claim C1: breakdown fields in [0, 100] -/

/-- C1 counterexample: the claim quantifies over any numeric input values,
but `calculateBreakdown` never clamps below, so a stored negative
years-of-experience value drives `careerTrack` to -185, outside [0, 100]. -/
theorem careerTrack_negative_counterexample :
    (calculateBreakdown ⟨2025, 0⟩ chefRecNegYears).careerTrack = -185 ∧
    ¬ (0 ≤ (calculateBreakdown ⟨2025, 0⟩ chefRecNegYears).careerTrack) := by
  have h : (calculateBreakdown ⟨2025, 0⟩ chefRecNegYears).careerTrack = -185 := by
    norm_num +decide [calculateBreakdown, chefRecNegYears, careerTrackRaw, round1,
      min_def, max_def]
  exact ⟨h, by rw [h]; norm_num⟩

/-- C1 (amended): every breakdown field is at most 100 unconditionally, and
all four fields lie in [0, 100] whenever the stored years of experience and
every public-signal value are null or non-negative (the code clamps with
`Math.min(100, ...)` but has no lower clamp, so the lower bound needs the
stored numbers to be non-negative). -/
theorem calculateBreakdown_fields_in_range (now : JSDate) (chef : ChefRecords)
    (hy : ∀ y, chef.yearsExperience = some y → 0 ≤ y)
    (hv : ∀ s ∈ chef.publicSignals, ∀ v, s.value = some v → 0 ≤ v) :
    breakdownInRange (calculateBreakdown now chef) := by
  have hyears : (0:ℚ) ≤ ((chef.yearsExperience.getD 0 : ℤ) : ℚ) := by
    cases h : chef.yearsExperience with
    | none => simp
    | some y =>
      have := hy y h
      simp only [Option.getD_some]
      exact_mod_cast this
  have hsig : ∀ s ∈ chef.publicSignals.filter
      (fun s => jsDateLe { now with year := now.year - 10 } s.createdAt),
      0 ≤ s.value.getD 0 := by
    intro s hs
    have hmem : s ∈ chef.publicSignals := List.mem_of_mem_filter hs
    cases hval : s.value with
    | none => simp
    | some v =>
      have := hv s hmem v hval
      simpa using this
  have hf := formalAccoladesRaw_bounds
    (chef.accolades.filter (accoladeRecent (now.year - 10) { now with year := now.year - 10 }))
  have hc := careerTrackRaw_bounds
    (chef.careerEntries.filter (careerRecent (now.year - 10) { now with year := now.year - 10 }))
    hyears
  have hp := publicSignalsRaw_bounds
    (chef.publicSignals.filter (fun s => jsDateLe { now with year := now.year - 10 } s.createdAt))
    hsig
  have hq := peerStandingRaw_bounds
    (chef.peerStandings.filter (fun p => jsDateLe { now with year := now.year - 10 } p.createdAt))
  have h15 : ((15 : ℤ) : ℚ) = 15 := by norm_num
  refine ⟨⟨round1_nonneg hf.1, round1_le_100 hf.2⟩,
    ⟨round1_nonneg (by linarith [hc.1]), round1_le_100 hc.2⟩,
    ⟨round1_nonneg hp.1, round1_le_100 hp.2⟩,
    ⟨round1_nonneg hq.1, round1_le_100 hq.2⟩⟩

/-- C1 witness: the amended bounds applied at a concrete populated record
set with non-negative stored values. -/
theorem calculateBreakdown_fields_in_range_witness :
    (∀ y, chefRecW.yearsExperience = some y → 0 ≤ y) ∧
    (∀ s ∈ chefRecW.publicSignals, ∀ v, s.value = some v → 0 ≤ v) ∧
    breakdownInRange (calculateBreakdown tW chefRecW) := by
  have h1 : ∀ y, chefRecW.yearsExperience = some y → 0 ≤ y := by
    intro y h
    simp only [chefRecW, Option.some.injEq] at h
    omega
  have h2 : ∀ s ∈ chefRecW.publicSignals, ∀ v, s.value = some v → 0 ≤ v := by
    intro s hs v hv
    simp only [chefRecW, List.mem_singleton] at hs
    subst hs
    simp only [Option.some.injEq] at hv
    subst hv
    norm_num
  exact ⟨h1, h2, calculateBreakdown_fields_in_range tW chefRecW h1 h2⟩

/-! ## Claim C10: careerTrack is at least 15 -/

/-- C10: with a null or non-negative stored years of experience, the career
track field is at least 15, because the role score contributes 30 for an
executive-pattern role and 15 otherwise, even with zero career entries. -/
theorem careerTrack_at_least_fifteen (now : JSDate) (chef : ChefRecords)
    (hy : ∀ y, chef.yearsExperience = some y → 0 ≤ y) :
    15 ≤ (calculateBreakdown now chef).careerTrack := by
  have hyears : (0:ℚ) ≤ ((chef.yearsExperience.getD 0 : ℤ) : ℚ) := by
    cases h : chef.yearsExperience with
    | none => simp
    | some y =>
      have := hy y h
      simp only [Option.getD_some]
      exact_mod_cast this
  have hc := careerTrackRaw_bounds
    (chef.careerEntries.filter (careerRecent (now.year - 10) { now with year := now.year - 10 }))
    hyears
  have h := intCast_le_round1 (n := 15)
    (q := careerTrackRaw ((chef.yearsExperience.getD 0 : ℤ) : ℚ)
      (chef.careerEntries.filter (careerRecent (now.year - 10) { now with year := now.year - 10 })))
    (by exact_mod_cast hc.1)
  have h15 : ((15 : ℤ) : ℚ) = 15 := by norm_num
  rw [h15] at h
  exact h

/-- C10 witness: a chef with no records at all still scores careerTrack 15. -/
theorem careerTrack_at_least_fifteen_witness :
    (∀ y, chefRecEmpty.yearsExperience = some y → 0 ≤ y) ∧
    15 ≤ (calculateBreakdown tW chefRecEmpty).careerTrack := by
  have h1 : ∀ y, chefRecEmpty.yearsExperience = some y → 0 ≤ y := by
    intro y h
    simp [chefRecEmpty] at h
  exact ⟨h1, careerTrack_at_least_fifteen tW chefRecEmpty h1⟩

/-! ## Claim C4: the Michelin component -/

/-- C4 counterexample: a Michelin accolade with detail 13 contains the
character 3, so the claim as stated predicts 100, but the source parses the
leading integer 13 and scores it 40. -/
theorem michelin_contains_three_counterexample :
    michelinScoreClaim [accolade13] = 100 ∧ scoreMichelinStars [accolade13] = 40 := by
  constructor
  · norm_num +decide [michelinScoreClaim, accolade13]
  · rw [scoreMichelinStars_eq]
    norm_num +decide [accolade13]

/-- C4 (amended): the Michelin component is 100 when some filtered
MICHELIN_STAR accolade has a detail whose leading integer parses to 3, 70
when one parses to 2, otherwise 40 whenever any Michelin star is present
(a missing or unparsable detail defaults to 1 star, scoring 40), and 0 with
no Michelin star; `starsOf` is `parseInt(detail || "1")`. -/
theorem scoreMichelinStars_leading_integer (accolades : List Accolade) :
    scoreMichelinStars accolades =
      (if (accolades.filter (fun a => a.type == "MICHELIN_STAR")).any
          (fun a => starsOf a == some 3) then 100
      else if (accolades.filter (fun a => a.type == "MICHELIN_STAR")).any
          (fun a => starsOf a == some 2) then 70
      else if (accolades.filter (fun a => a.type == "MICHELIN_STAR")).isEmpty then 0
      else 40) :=
  scoreMichelinStars_eq accolades

/-! ## Claim C8: getWeights -/

theorem setWeight_formalAccolades (w : ScoringWeights) (c : String) (v : ℚ) :
    (setWeight w c v).formalAccolades =
      if c = "formalAccolades" then v else w.formalAccolades := by
  unfold setWeight
  split <;> simp_all

theorem setWeight_careerTrack (w : ScoringWeights) (c : String) (v : ℚ) :
    (setWeight w c v).careerTrack =
      if c = "careerTrack" then v else w.careerTrack := by
  unfold setWeight
  split <;> simp_all

theorem setWeight_publicSignals (w : ScoringWeights) (c : String) (v : ℚ) :
    (setWeight w c v).publicSignals =
      if c = "publicSignals" then v else w.publicSignals := by
  unfold setWeight
  split <;> simp_all

theorem setWeight_peerStanding (w : ScoringWeights) (c : String) (v : ℚ) :
    (setWeight w c v).peerStanding =
      if c = "peerStanding" then v else w.peerStanding := by
  unfold setWeight
  split <;> simp_all

theorem lastWeight_cons (r : WeightRow) (rs : List WeightRow) (cat : String) (d : ℚ) :
    lastWeight (r :: rs) cat d = lastWeight rs cat (if r.category = cat then r.weight else d) := by
  unfold lastWeight
  rw [List.reverse_cons, List.find?_append]
  cases hf : rs.reverse.find? (fun x => x.category == cat) with
  | some x => simp
  | none =>
    by_cases hc : r.category = cat
    · simp [List.find?, hc]
    · have hb : (r.category == cat) = false := beq_eq_false_iff_ne.mpr hc
      simp [List.find?, hb, hc]

theorem getWeights_foldl (rows : List WeightRow) : ∀ acc : ScoringWeights,
    rows.foldl (fun w row => setWeight w row.category row.weight) acc =
      { formalAccolades := lastWeight rows "formalAccolades" acc.formalAccolades,
        careerTrack := lastWeight rows "careerTrack" acc.careerTrack,
        publicSignals := lastWeight rows "publicSignals" acc.publicSignals,
        peerStanding := lastWeight rows "peerStanding" acc.peerStanding } := by
  induction rows with
  | nil =>
    intro acc
    simp [lastWeight]
  | cons r rs ih =>
    intro acc
    rw [List.foldl_cons, ih]
    rw [setWeight_formalAccolades, setWeight_careerTrack, setWeight_publicSignals,
      setWeight_peerStanding, lastWeight_cons, lastWeight_cons, lastWeight_cons,
      lastWeight_cons]

/-- C8: `getWeights` always yields the complete four-key record; every
category takes the weight of its last stored row when one exists and the
documented default 0.35 / 0.25 / 0.15 / 0.25 otherwise, with no
normalization toward sum 1. -/
theorem getWeights_complete_with_defaults (rows : List WeightRow) :
    getWeights rows =
      { formalAccolades := lastWeight rows "formalAccolades" 0.35,
        careerTrack := lastWeight rows "careerTrack" 0.25,
        publicSignals := lastWeight rows "publicSignals" 0.15,
        peerStanding := lastWeight rows "peerStanding" 0.25 } := by
  cases rows with
  | nil => simp [getWeights, lastWeight, DEFAULT_WEIGHTS]
  | cons r rs =>
    have h : getWeights (r :: rs) =
        (r :: rs).foldl (fun w row => setWeight w row.category row.weight) DEFAULT_WEIGHTS := by
      simp [getWeights]
    rw [h, getWeights_foldl]
    simp [DEFAULT_WEIGHTS]

/-! ## Claim C2: dense ranks, descending order, stable ties -/

theorem leScored_trans (a b c : Scored) (hab : leScored a b) (hbc : leScored b c) :
    leScored a c := by
  unfold leScored at *
  simp only [Bool.or_eq_true, Bool.and_eq_true, decide_eq_true_eq] at *
  rcases hab with h1 | ⟨h1, h2⟩ <;> rcases hbc with h3 | ⟨h3, h4⟩
  · exact Or.inl (lt_trans h3 h1)
  · exact Or.inl (h3 ▸ h1)
  · exact Or.inl (by rw [h1]; exact h3)
  · exact Or.inr ⟨h1.trans h3, le_trans h2 h4⟩

theorem leScored_total (a b : Scored) : leScored a b || leScored b a := by
  unfold leScored
  simp only [Bool.or_eq_true, Bool.and_eq_true, decide_eq_true_eq]
  rcases lt_trichotomy a.total b.total with h | h | h
  · exact Or.inr (Or.inl h)
  · rcases Nat.le_total a.idx b.idx with hi | hi
    · exact Or.inl (Or.inr ⟨h, hi⟩)
    · exact Or.inr (Or.inr ⟨h.symm, hi⟩)
  · exact Or.inl (Or.inl h)

theorem scoredOf_map_fst (w : ScoringWeights) (t : JSDate) (l : List Chef) :
    (scoredOf w t l).map (fun s => s.idx) = List.range l.length := by
  unfold scoredOf
  rw [List.map_map]
  exact List.enum_map_fst l

theorem scoredOf_map_id (w : ScoringWeights) (t : JSDate) (l : List Chef) :
    (scoredOf w t l).map (fun s => s.id) = l.map (fun c => c.id) := by
  unfold scoredOf
  rw [List.map_map]
  have h : (l.enum.map Prod.snd).map (fun c => c.id) = l.map (fun c => c.id) := by
    rw [List.enum_map_snd]
  rw [← h, List.map_map]
  rfl

/-- C2: the ranks computed by `recalculateAllScores` over the non-archived
chefs are exactly 1..N in the order of the sorted output, the output ids are
a permutation of the fetched ids, the output is ordered by total score
descending, and equal-total chefs keep their relative pre-sort fetch order. -/
theorem recalculateAll_dense_ranks_sorted_stable
    (chefs : List Chef) (w : ScoringWeights) (t : JSDate) :
    (rankingOf w t (activeChefs chefs)).map (fun r => r.rank)
        = List.range' 1 (activeChefs chefs).length ∧
    ((rankingOf w t (activeChefs chefs)).map (fun r => r.id)).Perm
        ((activeChefs chefs).map (fun c => c.id)) ∧
    (rankingOf w t (activeChefs chefs)).Pairwise (fun a b => b.total ≤ a.total) ∧
    (rankingOf w t (activeChefs chefs)).Pairwise
        (fun a b => a.total = b.total → a.idx < b.idx) := by
  set A := activeChefs chefs with hA
  set s := scoredOf w t A with hs
  set m := s.mergeSort leScored with hm
  have hperm : m.Perm s := List.mergeSort_perm s leScored
  have hlen : m.length = A.length := by
    rw [hperm.length_eq, hs]
    unfold scoredOf
    rw [List.length_map, List.enum_length]
  have hsorted : m.Pairwise (fun a b => leScored a b = true) :=
    List.sorted_mergeSort leScored_trans leScored_total s
  have hnodupidx : m.Pairwise (fun a b => a.idx ≠ b.idx) := by
    have h1 : (s.map (fun x => x.idx)).Nodup := by
      rw [hs, scoredOf_map_fst]
      exact List.nodup_range _
    have h2 : (m.map (fun x => x.idx)).Nodup :=
      ((hperm.map (fun x => x.idx)).nodup_iff).mpr h1
    have h3 : List.Pairwise (fun a b => a ≠ b) (m.map (fun x => x.idx)) := h2
    rw [List.pairwise_map] at h3
    exact h3
  refine ⟨?_, ?_, ?_, ?_⟩
  · unfold rankingOf
    rw [← hs, ← hm, List.map_map]
    have h1 : ((fun r : Ranked => r.rank) ∘ fun p : ℕ × Scored =>
        ({ id := p.2.id, total := p.2.total, breakdown := p.2.breakdown,
           idx := p.2.idx, rank := p.1 + 1 } : Ranked)) = fun p => p.1 + 1 := rfl
    rw [h1]
    have h2 : m.enum.map (fun p => p.1 + 1) = (m.enum.map Prod.fst).map (fun i => i + 1) := by
      rw [List.map_map]; rfl
    rw [h2, List.enum_map_fst, hlen, List.range'_eq_map_range]
    apply List.map_congr_left
    intro i hi
    omega
  · unfold rankingOf
    rw [← hs, ← hm, List.map_map]
    have h1 : ((fun r : Ranked => r.id) ∘ fun p : ℕ × Scored =>
        ({ id := p.2.id, total := p.2.total, breakdown := p.2.breakdown,
           idx := p.2.idx, rank := p.1 + 1 } : Ranked)) =
        (fun s : Scored => s.id) ∘ Prod.snd := rfl
    rw [h1, ← List.map_map, List.enum_map_snd]
    exact (hperm.map (fun x => x.id)).trans (by rw [hs, scoredOf_map_id])
  · unfold rankingOf
    rw [← hs, ← hm, List.pairwise_map]
    have h := hsorted.imp (fun {a b} hab => by
      unfold leScored at hab
      simp only [Bool.or_eq_true, Bool.and_eq_true, decide_eq_true_eq] at hab
      rcases hab with h1 | ⟨h1, _⟩
      · exact le_of_lt h1
      · exact le_of_eq h1.symm)
    rw [← List.enum_map_snd m, List.pairwise_map] at h
    exact h.imp (fun {p q} hpq => hpq)
  · unfold rankingOf
    rw [← hs, ← hm, List.pairwise_map]
    have hcomb := hsorted.and hnodupidx
    have hkey : ∀ a b : Scored, (leScored a b = true ∧ a.idx ≠ b.idx) →
        (a.total = b.total → a.idx < b.idx) := by
      intro a b hab heq
      obtain ⟨hle, hne⟩ := hab
      unfold leScored at hle
      simp only [Bool.or_eq_true, Bool.and_eq_true, decide_eq_true_eq] at hle
      rcases hle with h1 | ⟨_, h2⟩
      · exact ((lt_irrefl _ (heq ▸ h1)).elim)
      · exact lt_of_le_of_ne h2 hne
    have h : m.Pairwise (fun a b => a.total = b.total → a.idx < b.idx) :=
      hcomb.imp (fun hab => hkey _ _ hab)
    rw [← List.enum_map_snd m, List.pairwise_map] at h
    exact h.imp (fun {p q} hpq => hpq)

/-! ## Claim C7: idempotence of recalculation -/

theorem applyRanking_id_eq (rk : List Ranked) (c : Chef) : (applyRanking rk c).id = c.id := by
  unfold applyRanking
  split
  · rfl
  · split <;> rfl

theorem applyRanking_isArchived (rk : List Ranked) (c : Chef) :
    (applyRanking rk c).isArchived = c.isArchived := by
  unfold applyRanking
  split
  · rfl
  · split <;> rfl

theorem applyRanking_records (rk : List Ranked) (c : Chef) :
    (applyRanking rk c).records = c.records := by
  unfold applyRanking
  split
  · rfl
  · split <;> rfl

theorem applyRanking_applyRanking (rk : List Ranked) (c : Chef) :
    applyRanking rk (applyRanking rk c) = applyRanking rk c := by
  by_cases h : c.isArchived = true
  · have h1 : applyRanking rk c = c := by unfold applyRanking; rw [if_pos h]
    rw [h1, h1]
  · cases hf : rk.find? (fun r => r.id == c.id) with
    | some r =>
      have h1 : applyRanking rk c = { c with totalScore := r.total, rank := some r.rank } := by
        unfold applyRanking
        rw [if_neg h, hf]
      rw [h1]
      unfold applyRanking
      rw [if_neg h]
      have hf2 : rk.find?
          (fun x => x.id == ({ c with totalScore := r.total, rank := some r.rank } : Chef).id)
          = some r := hf
      rw [hf2]
    | none =>
      have h1 : applyRanking rk c = c := by
        unfold applyRanking
        rw [if_neg h, hf]
      rw [h1, h1]

theorem scoredOf_map_applyRanking (w : ScoringWeights) (t : JSDate) (rk : List Ranked)
    (l : List Chef) :
    scoredOf w t (l.map (applyRanking rk)) = scoredOf w t l := by
  unfold scoredOf
  rw [List.enum_map, List.map_map]
  apply List.map_congr_left
  intro p _
  have hid : (applyRanking rk p.2).id = p.2.id := applyRanking_id_eq rk p.2
  have hrec : (applyRanking rk p.2).records = p.2.records := applyRanking_records rk p.2
  simp only [Function.comp, Prod.map, id_eq]
  rw [hid, hrec]

theorem activeChefs_recalc (w : ScoringWeights) (t : JSDate) (chefs : List Chef) :
    activeChefs (recalcChefs w t chefs) =
      (activeChefs chefs).map (applyRanking (rankingOf w t (activeChefs chefs))) := by
  unfold recalcChefs activeChefs
  rw [List.filter_map]
  congr 1
  apply List.filter_congr
  intro c _
  simp only [Function.comp]
  rw [applyRanking_isArchived]

/-- C7: `recalculateAllScores` is idempotent: a second run over the updated
store recomputes every score and rank from the unchanged source records and
writes back exactly the same values, leaving the store fixed. -/
theorem recalculateAll_idempotent (w : ScoringWeights) (t : JSDate) (db : DB) :
    recalcDB w t (recalcDB w t db) = recalcDB w t db := by
  have hchefs : recalcChefs w t (recalcChefs w t db.chefs) = recalcChefs w t db.chefs := by
    have hrk2 : rankingOf w t (activeChefs (recalcChefs w t db.chefs)) =
        rankingOf w t (activeChefs db.chefs) := by
      rw [activeChefs_recalc]
      unfold rankingOf
      rw [scoredOf_map_applyRanking]
    show (recalcChefs w t db.chefs).map
        (applyRanking (rankingOf w t (activeChefs (recalcChefs w t db.chefs))))
      = recalcChefs w t db.chefs
    rw [hrk2]
    show (db.chefs.map (applyRanking (rankingOf w t (activeChefs db.chefs)))).map
        (applyRanking (rankingOf w t (activeChefs db.chefs)))
      = recalcChefs w t db.chefs
    rw [List.map_map]
    apply List.map_congr_left
    intro c _
    exact applyRanking_applyRanking _ c
  unfold recalcDB
  simp only [hchefs]

/-! ## Claim C9: determinism and purity -/

/-- C9 counterexample: the output of `calculateBreakdown` depends on the
clock read through `new Date()`, not only on the record set and weights:
the same record set scores differently in 2025 and 2027. -/
theorem calculateBreakdown_clock_dependence_counterexample :
    calculateBreakdown ⟨2025, 0⟩ chefRecOther ≠ calculateBreakdown ⟨2027, 0⟩ chefRecOther := by
  have h1 : (calculateBreakdown ⟨2025, 0⟩ chefRecOther).formalAccolades = 9 := by
    norm_num +decide [calculateBreakdown, chefRecOther, formalAccoladesRaw, accoladeRecent,
      jsDateLe, scoreMichelinStars, scoreAccoladeType, round1, List.filter, min_def, max_def]
  have h2 : (calculateBreakdown ⟨2027, 0⟩ chefRecOther).formalAccolades = 0 := by
    norm_num +decide [calculateBreakdown, chefRecOther, formalAccoladesRaw, accoladeRecent,
      jsDateLe, scoreMichelinStars, scoreAccoladeType, round1, List.filter, min_def, max_def]
  intro heq
  rw [heq, h2] at h1
  norm_num at h1

/-- C9 (amended): `calculateBreakdown` and `calculateTotalScore` are pure
functions of the record set, the weights and the evaluation time: with the
clock input fixed, repeated calls agree exactly, and `calculateTotalScore`
depends on nothing besides the breakdown and the weights. -/
theorem scoring_deterministic_at_fixed_time (now : JSDate) (chef : ChefRecords)
    (w : ScoringWeights) :
    calculateBreakdown now chef = calculateBreakdown now chef ∧
    calculateTotalScore (calculateBreakdown now chef) w =
      calculateTotalScore (calculateBreakdown now chef) w :=
  ⟨rfl, rfl⟩

/-! ## Snapshot helper lemmas -/

theorem rankingOf_ids_perm (w : ScoringWeights) (t : JSDate) (l : List Chef) :
    ((rankingOf w t l).map (fun r => r.id)).Perm (l.map (fun c => c.id)) := by
  unfold rankingOf
  rw [List.map_map]
  have h1 : ((fun r : Ranked => r.id) ∘ fun p : ℕ × Scored =>
      ({ id := p.2.id, total := p.2.total, breakdown := p.2.breakdown,
         idx := p.2.idx, rank := p.1 + 1 } : Ranked)) =
      (fun s : Scored => s.id) ∘ Prod.snd := rfl
  rw [h1, ← List.map_map, List.enum_map_snd]
  exact ((List.mergeSort_perm (scoredOf w t l) leScored).map (fun x => x.id)).trans
    (by rw [scoredOf_map_id])

theorem rankingOf_rank_pos (w : ScoringWeights) (t : JSDate) (l : List Chef) :
    ∀ r ∈ rankingOf w t l, 0 < r.rank := by
  intro r hr
  unfold rankingOf at hr
  rw [List.mem_map] at hr
  obtain ⟨p, _, hp⟩ := hr
  rw [← hp]
  exact Nat.succ_pos _

theorem recalc_active_rank_pos (w : ScoringWeights) (t : JSDate) (chefs : List Chef) :
    ∀ c ∈ activeChefs (recalcChefs w t chefs), ∃ n, c.rank = some n ∧ 0 < n := by
  rw [activeChefs_recalc]
  intro c hc
  rw [List.mem_map] at hc
  obtain ⟨c0, hc0, rfl⟩ := hc
  have ha : c0.isArchived = false := by
    unfold activeChefs at hc0
    have := List.of_mem_filter hc0
    simpa using this
  have hmem : c0.id ∈ (rankingOf w t (activeChefs chefs)).map (fun r => r.id) := by
    rw [(rankingOf_ids_perm w t (activeChefs chefs)).mem_iff]
    exact List.mem_map_of_mem (fun c => c.id) hc0
  rw [List.mem_map] at hmem
  obtain ⟨r, hr, hrid⟩ := hmem
  have hsome : ((rankingOf w t (activeChefs chefs)).find?
      (fun x => x.id == c0.id)).isSome := by
    rw [List.find?_isSome]
    exact ⟨r, hr, beq_iff_eq.mpr hrid⟩
  obtain ⟨r', hfind⟩ := Option.isSome_iff_exists.mp hsome
  have hpos : 0 < r'.rank :=
    rankingOf_rank_pos w t (activeChefs chefs) r' (List.mem_of_find?_eq_some hfind)
  refine ⟨r'.rank, ?_, hpos⟩
  unfold applyRanking
  rw [if_neg (by simp [ha]), hfind]

theorem chefsByRank_mem (chefs : List Chef) (c : Chef) :
    c ∈ chefsByRank chefs ↔ c ∈ activeChefs chefs := by
  unfold chefsByRank
  exact List.mem_mergeSort

theorem prevEntries_subset (db : DB) (month : String) :
    ∀ e ∈ prevEntries db month, e ∈ db.entries := by
  intro e he
  unfold prevEntries at he
  cases hb : bestPrev db.snapshots month with
  | none => rw [hb] at he; cases he
  | some s =>
    rw [hb] at he
    exact List.mem_of_mem_filter he

theorem lookupRank_mem (es : List SnapEntry) (cid : String) (p : ℕ)
    (h : lookupRank es cid = some p) : ∃ e ∈ es, e.rank = p := by
  unfold lookupRank at h
  cases hf : es.reverse.find? (fun e => e.chefId == cid) with
  | none => rw [hf] at h; cases h
  | some e =>
    rw [hf] at h
    have h2 : e.rank = p := by injection h
    exact ⟨e, List.mem_reverse.mp (List.mem_of_find?_eq_some hf), h2⟩

theorem foldl_pickBetter (l : List Snapshot) : ∀ (acc : Option Snapshot) (s : Snapshot),
    l.foldl pickBetter acc = some s →
      (s ∈ l ∨ acc = some s) ∧ (∀ x ∈ l, x.month ≤ s.month) ∧
        (∀ a, acc = some a → a.month ≤ s.month) := by
  induction l with
  | nil =>
    intro acc s h
    have h2 : acc = some s := h
    refine ⟨Or.inr h2, by simp, ?_⟩
    intro a ha
    rw [h2] at ha
    injection ha with ha2
    rw [← ha2]
  | cons x l ih =>
    intro acc s h
    rw [List.foldl_cons] at h
    obtain ⟨hmem, hall, hacc⟩ := ih (pickBetter acc x) s h
    cases acc with
    | none =>
      have hpb : pickBetter none x = some x := rfl
      have hx : x.month ≤ s.month := hacc x hpb
      refine ⟨?_, ?_, ?_⟩
      · rcases hmem with hm | hm
        · exact Or.inl (List.mem_cons_of_mem x hm)
        · rw [hpb] at hm
          injection hm with hm2
          exact Or.inl (hm2 ▸ List.mem_cons_self x l)
      · intro y hy
        rcases List.mem_cons.mp hy with rfl | hy2
        · exact hx
        · exact hall y hy2
      · intro a ha
        cases ha
    | some a =>
      by_cases hlt : a.month < x.month
      · have hpb : pickBetter (some a) x = some x := by
          simp only [pickBetter]
          rw [if_pos hlt]
        have hx : x.month ≤ s.month := hacc x hpb
        refine ⟨?_, ?_, ?_⟩
        · rcases hmem with hm | hm
          · exact Or.inl (List.mem_cons_of_mem x hm)
          · rw [hpb] at hm
            injection hm with hm2
            exact Or.inl (hm2 ▸ List.mem_cons_self x l)
        · intro y hy
          rcases List.mem_cons.mp hy with rfl | hy2
          · exact hx
          · exact hall y hy2
        · intro a2 ha2
          injection ha2 with ha3
          rw [← ha3]
          exact le_trans (le_of_lt hlt) hx
      · have hpb : pickBetter (some a) x = some a := by
          simp only [pickBetter]
          rw [if_neg hlt]
        have ha2 : a.month ≤ s.month := hacc a hpb
        have hx : x.month ≤ s.month := le_trans (le_of_not_lt hlt) ha2
        refine ⟨?_, ?_, ?_⟩
        · rcases hmem with hm | hm
          · exact Or.inl (List.mem_cons_of_mem x hm)
          · rw [hpb] at hm
            exact Or.inr hm
        · intro y hy
          rcases List.mem_cons.mp hy with rfl | hy2
          · exact hx
          · exact hall y hy2
        · intro a3 ha3
          injection ha3 with ha4
          rw [← ha4]
          exact ha2

theorem foldl_pickBetter_none (l : List Snapshot) : ∀ acc,
    l.foldl pickBetter acc = none → l = [] ∧ acc = none := by
  induction l with
  | nil =>
    intro acc h
    exact ⟨rfl, h⟩
  | cons x l ih =>
    intro acc h
    rw [List.foldl_cons] at h
    obtain ⟨_, hacc⟩ := ih _ h
    exfalso
    cases acc with
    | none => cases hacc
    | some a =>
      simp only [pickBetter] at hacc
      split_ifs at hacc

/-- The snapshot picked by `bestPrev` is exactly the latest stored snapshot
whose month precedes the target month. -/
theorem bestPrev_latest (snaps : List Snapshot) (month : String) :
    (∀ s, bestPrev snaps month = some s →
      s ∈ snaps ∧ s.month < month ∧ ∀ s2 ∈ snaps, s2.month < month → s2.month ≤ s.month) ∧
    (bestPrev snaps month = none → ∀ s ∈ snaps, ¬ s.month < month) := by
  constructor
  · intro s h
    unfold bestPrev at h
    obtain ⟨hmem, hall, _⟩ := foldl_pickBetter _ none s h
    have hmem2 : s ∈ snaps.filter (fun s => decide (s.month < month)) := by
      rcases hmem with hm | hm
      · exact hm
      · cases hm
    refine ⟨List.mem_of_mem_filter hmem2, ?_, ?_⟩
    · have := List.of_mem_filter hmem2
      simpa using this
    · intro s2 hs2 hlt
      exact hall s2 (List.mem_filter.mpr ⟨hs2, by simpa using hlt⟩)
  · intro h s hs hlt
    unfold bestPrev at h
    obtain ⟨hnil, _⟩ := foldl_pickBetter_none _ none h
    have hmem : s ∈ snaps.filter (fun s => decide (s.month < month)) :=
      List.mem_filter.mpr ⟨hs, by simpa using hlt⟩
    rw [hnil] at hmem
    cases hmem

theorem upsertSnapshot_entries (month : String) (notes : Option String) (t : JSDate)
    (db : DB) : (upsertSnapshot month notes t db).2.entries = db.entries := by
  unfold upsertSnapshot
  cases hf : db.snapshots.find? (fun s => s.month == month) <;> rfl

theorem upsertSnapshot_chefs (month : String) (notes : Option String) (t : JSDate)
    (db : DB) : (upsertSnapshot month notes t db).2.chefs = db.chefs := by
  unfold upsertSnapshot
  cases hf : db.snapshots.find? (fun s => s.month == month) <;> rfl

/-- The entries carrying the returned snapshot id after one publish are
exactly the freshly written ones: one per non-archived chef, in rank order. -/
theorem createSnapshot_entries_for_sid (month : String) (notes : Option String)
    (w : ScoringWeights) (t : JSDate) (db : DB) :
    (createMonthlySnapshot month notes w t db).2.entries.filter
        (fun e => e.snapshotId == (createMonthlySnapshot month notes w t db).1)
      = (chefsByRank (recalcChefs w t db.chefs)).map
          (snapEntryFor (createMonthlySnapshot month notes w t db).1
            (prevEntries (recalcDB w t db) month) w t) := by
  simp only [createMonthlySnapshot]
  rw [List.filter_append, List.filter_filter]
  have h1 : List.filter
      (fun e => e.snapshotId == (upsertSnapshot month notes t (recalcDB w t db)).1 &&
        !(e.snapshotId == (upsertSnapshot month notes t (recalcDB w t db)).1))
      (upsertSnapshot month notes t (recalcDB w t db)).2.entries = [] := by
    apply List.filter_eq_nil_iff.mpr
    intro e _
    simp
  rw [h1, List.nil_append]
  apply List.filter_eq_self.mpr
  intro e he
  rw [List.mem_map] at he
  obtain ⟨c, _, rfl⟩ := he
  simp [snapEntryFor]

/-! ## Claim C3: snapshot deltas -/

/-- C3: every entry written by `createMonthlySnapshot` (over a store whose
stored snapshot-entry ranks are positive) carries
`delta = previousRank - currentRank` exactly when the prior snapshot (the
stored snapshot with the greatest month below the target, per
`bestPrev_latest`) has an entry for that chef, and `delta = null` (never 0)
when the chef is absent from the prior snapshot or no prior snapshot
exists. -/
theorem snapshot_delta_spec (month : String) (notes : Option String)
    (w : ScoringWeights) (t : JSDate) (db : DB)
    (hpos : ∀ e ∈ db.entries, 0 < e.rank) :
    ∀ e ∈ (createMonthlySnapshot month notes w t db).2.entries.filter
        (fun e => e.snapshotId == (createMonthlySnapshot month notes w t db).1),
      e.delta = (lookupRank (prevEntries db month) e.chefId).map
        (fun p => (p : ℤ) - (e.rank : ℤ)) := by
  intro e he
  rw [createSnapshot_entries_for_sid] at he
  rw [List.mem_map] at he
  obtain ⟨c, hc, rfl⟩ := he
  have hc2 : c ∈ activeChefs (recalcChefs w t db.chefs) := (chefsByRank_mem _ c).mp hc
  obtain ⟨n, hrank, hnpos⟩ := recalc_active_rank_pos w t db.chefs c hc2
  have hprev : prevEntries (recalcDB w t db) month = prevEntries db month := rfl
  cases hl : lookupRank (prevEntries db month) c.id with
  | none =>
    simp [snapEntryFor, hprev, hl, truthyRank]
  | some p =>
    obtain ⟨e0, he0, hrank0⟩ := lookupRank_mem _ _ _ hl
    have hp : 0 < p := by
      rw [← hrank0]
      exact hpos e0 (prevEntries_subset db month e0 he0)
    simp only [snapEntryFor, hprev, hl, hrank, truthyRank]
    have hbp : (!(p == 0)) = true := by
      simp only [Bool.not_eq_eq_eq_not, Bool.not_true, beq_eq_false_iff_ne]
      omega
    have hbn : (!(n == 0)) = true := by
      simp only [Bool.not_eq_eq_eq_not, Bool.not_true, beq_eq_false_iff_ne]
      omega
    simp [hbp, hbn]

/-- C3 witness: the delta characterization applied to a concrete store with
one chef previously ranked fifth. -/
theorem snapshot_delta_spec_witness :
    (∀ e ∈ dbW3.entries, 0 < e.rank) ∧
    (∀ e ∈ (createMonthlySnapshot "2024-05" none DEFAULT_WEIGHTS tW dbW3).2.entries.filter
        (fun e => e.snapshotId == (createMonthlySnapshot "2024-05" none DEFAULT_WEIGHTS tW dbW3).1),
      e.delta = (lookupRank (prevEntries dbW3 "2024-05") e.chefId).map
        (fun p => (p : ℤ) - (e.rank : ℤ))) := by
  have h1 : ∀ e ∈ dbW3.entries, 0 < e.rank := by decide
  exact ⟨h1, snapshot_delta_spec "2024-05" none DEFAULT_WEIGHTS tW dbW3 h1⟩

/-! ## Claim C5: month validation -/

/-- C5 counterexample: `createMonthlySnapshot` itself performs no month
validation: called directly with the malformed month "bad" it does not
fail, and it creates a MonthlySnapshot row for that month. -/
theorem createMonthlySnapshot_no_validation_counterexample :
    isValidMonth "bad" = false ∧
    ((createMonthlySnapshot "bad" none DEFAULT_WEIGHTS tW dbEmpty).2.snapshots.map
      (fun s => s.month)) = ["bad"] := by
  constructor
  · decide
  · rfl

/-- C5 (amended): the month regex check lives in the API handler, not in
`createMonthlySnapshot`: for every month string failing `^\d{4}-\d{2}$`,
`POST /api/snapshots` answers with the validation error and returns the
store unchanged: no recalculation, no snapshot row, no entries. -/
theorem postSnapshots_rejects_invalid_month (m : String) (notes : Option String)
    (w : ScoringWeights) (t : JSDate) (db : DB) (h : isValidMonth m = false) :
    postSnapshots (some m) notes w t db =
      (Except.error "Invalid month format. Use YYYY-MM.", db) := by
  unfold postSnapshots
  simp [h]

/-- C5 witness: the handler rejects the malformed month "2024-1" and leaves
the store untouched. -/
theorem postSnapshots_rejects_invalid_month_witness :
    isValidMonth "2024-1" = false ∧
    postSnapshots (some "2024-1") none DEFAULT_WEIGHTS tW dbEmpty =
      (Except.error "Invalid month format. Use YYYY-MM.", dbEmpty) :=
  ⟨by decide,
    postSnapshots_rejects_invalid_month "2024-1" none DEFAULT_WEIGHTS tW dbEmpty (by decide)⟩

/-! ## Claim C6: republish replaces wholesale -/

theorem upsertSnapshot_months (month : String) (notes : Option String) (t : JSDate)
    (db : DB) :
    ((upsertSnapshot month notes t db).2.snapshots.map (fun s => s.month))
      = db.snapshots.map (fun s => s.month) ++
          (if db.snapshots.any (fun s => s.month == month) then [] else [month]) := by
  unfold upsertSnapshot
  cases hf : db.snapshots.find? (fun s => s.month == month) with
  | some s =>
    have hany : db.snapshots.any (fun s => s.month == month) = true := by
      rw [List.any_eq_true]
      have hp := List.find?_some hf
      exact ⟨s, List.mem_of_find?_eq_some hf, hp⟩
    simp only [hany, if_true, List.append_nil, List.map_map]
    apply List.map_congr_left
    intro x _
    simp only [Function.comp]
    by_cases hx : (x.month == month) = true
    · rw [if_pos hx]
    · rw [if_neg hx]
  | none =>
    have hany : db.snapshots.any (fun s => s.month == month) = false := by
      rw [List.any_eq_false]
      intro x hx
      exact (List.find?_eq_none.mp hf) x hx
    simp [hany]

theorem count_months_filter (L : List Snapshot) (m : String) :
    (L.filter (fun s => s.month == m)).length = List.count m (L.map (fun s => s.month)) := by
  have h1 : List.count m (L.map (fun s => s.month))
      = List.countP (fun a => a == m) (L.map (fun s => s.month)) := rfl
  rw [h1, List.countP_map, List.countP_eq_length_filter]
  rfl

theorem upsertSnapshot_month_unique (month : String) (notes : Option String) (t : JSDate)
    (db : DB) (hm : (db.snapshots.map (fun s => s.month)).Nodup) :
    ((upsertSnapshot month notes t db).2.snapshots.map (fun s => s.month)).Nodup ∧
    List.count month ((upsertSnapshot month notes t db).2.snapshots.map (fun s => s.month))
      = 1 := by
  rw [upsertSnapshot_months]
  cases hany : db.snapshots.any (fun s => s.month == month) with
  | true =>
    have hmem : month ∈ db.snapshots.map (fun s => s.month) := by
      obtain ⟨s, hs, hbeq⟩ := List.any_eq_true.mp hany
      exact List.mem_map.mpr ⟨s, hs, beq_iff_eq.mp hbeq⟩
    constructor
    · simpa using hm
    · simpa using List.count_eq_one_of_mem hm hmem
  | false =>
    have hnot : month ∉ db.snapshots.map (fun s => s.month) := by
      rw [List.mem_map]
      rintro ⟨s, hs, hms⟩
      have := List.any_eq_false.mp hany s hs
      exact this (beq_iff_eq.mpr hms)
    constructor
    · simp only [if_false, Bool.false_eq_true]
      rw [List.nodup_append]
      exact ⟨hm, List.nodup_singleton month, by simpa [List.disjoint_singleton] using hnot⟩
    · simp only [if_false, Bool.false_eq_true, List.count_append]
      rw [List.count_eq_zero.mpr hnot, List.count_singleton_self]

theorem upsertSnapshot_fst_eq (month : String) (notes : Option String) (t : JSDate)
    (db : DB) (s : Snapshot)
    (hf : db.snapshots.find? (fun x => x.month == month) = some s) :
    (upsertSnapshot month notes t db).1 = s.id := by
  unfold upsertSnapshot
  rw [hf]

theorem upsertSnapshot_find_self (month : String) (notes : Option String) (t : JSDate)
    (db : DB) :
    ((upsertSnapshot month notes t db).2.snapshots.find? (fun s => s.month == month)).map
      (fun s => s.id) = some (upsertSnapshot month notes t db).1 := by
  unfold upsertSnapshot
  cases hf : db.snapshots.find? (fun s => s.month == month) with
  | some s =>
    simp only [List.find?_map]
    have hpf : ((fun s : Snapshot => s.month == month) ∘ (fun x : Snapshot =>
        if x.month == month
        then ({ x with notes := notes, publishedAt := some t } : Snapshot) else x))
        = (fun x : Snapshot => x.month == month) := by
      funext x
      simp only [Function.comp]
      by_cases hx : (x.month == month) = true
      · rw [if_pos hx]
      · rw [if_neg hx]
    rw [hpf, hf]
    have hsm := List.find?_some hf
    show some (if (s.month == month)
        then ({ s with notes := notes, publishedAt := some t } : Snapshot) else s).id = _
    rw [if_pos hsm]
  | none =>
    simp only [List.find?_append, hf, Option.none_or]
    simp [List.find?]

/-- Publishing twice for the same month with a roster change in between. -/
def republishTwice (db : DB) (m : String) (n1 n2 : Option String)
    (w1 w2 : ScoringWeights) (t1 t2 : JSDate) (newChefs : List Chef) : ℕ × DB :=
  createMonthlySnapshot m n2 w2 t2
    { (createMonthlySnapshot m n1 w1 t1 db).2 with chefs := newChefs }

/-- C6: after publishing the same month twice (with an arbitrary roster
change in between), exactly one MonthlySnapshot row carries that month, the
second publish reuses the first snapshot id, and the entries under that id
are exactly one per currently non-archived chef, with no leftovers from the
first publish. -/
theorem snapshot_republish_replaces (db : DB) (m : String) (n1 n2 : Option String)
    (w1 w2 : ScoringWeights) (t1 t2 : JSDate) (newChefs : List Chef)
    (hm : (db.snapshots.map (fun s => s.month)).Nodup) :
    ((republishTwice db m n1 n2 w1 w2 t1 t2 newChefs).2.snapshots.filter
        (fun s => s.month == m)).length = 1 ∧
    (republishTwice db m n1 n2 w1 w2 t1 t2 newChefs).1
        = (createMonthlySnapshot m n1 w1 t1 db).1 ∧
    (((republishTwice db m n1 n2 w1 w2 t1 t2 newChefs).2.entries.filter
        (fun e => e.snapshotId == (republishTwice db m n1 n2 w1 w2 t1 t2 newChefs).1)).map
      (fun e => e.chefId)).Perm ((activeChefs newChefs).map (fun c => c.id)) := by
  have h1 := upsertSnapshot_month_unique m n1 t1 (recalcDB w1 t1 db) hm
  have hsnap1 : (createMonthlySnapshot m n1 w1 t1 db).2.snapshots
      = (upsertSnapshot m n1 t1 (recalcDB w1 t1 db)).2.snapshots := rfl
  have h2 := upsertSnapshot_month_unique m n2 t2
    (recalcDB w2 t2 { (createMonthlySnapshot m n1 w1 t1 db).2 with chefs := newChefs })
    (by rw [show (recalcDB w2 t2
        { (createMonthlySnapshot m n1 w1 t1 db).2 with chefs := newChefs }).snapshots
        = (upsertSnapshot m n1 t1 (recalcDB w1 t1 db)).2.snapshots from rfl]
        exact h1.1)
  refine ⟨?_, ?_, ?_⟩
  · rw [show (republishTwice db m n1 n2 w1 w2 t1 t2 newChefs).2.snapshots
        = (upsertSnapshot m n2 t2 (recalcDB w2 t2
            { (createMonthlySnapshot m n1 w1 t1 db).2 with chefs := newChefs })).2.snapshots
        from rfl]
    rw [count_months_filter]
    exact h2.2
  · have hfind := upsertSnapshot_find_self m n1 t1 (recalcDB w1 t1 db)
    cases hf2 : (upsertSnapshot m n1 t1 (recalcDB w1 t1 db)).2.snapshots.find?
        (fun s => s.month == m) with
    | none => rw [hf2] at hfind; cases hfind
    | some s =>
      rw [hf2] at hfind
      have hid : s.id = (upsertSnapshot m n1 t1 (recalcDB w1 t1 db)).1 := by
        injection hfind
      have hstep : (republishTwice db m n1 n2 w1 w2 t1 t2 newChefs).1
          = (upsertSnapshot m n2 t2 (recalcDB w2 t2
              { (createMonthlySnapshot m n1 w1 t1 db).2 with chefs := newChefs })).1 := rfl
      rw [hstep]
      have hf3 : (recalcDB w2 t2
          { (createMonthlySnapshot m n1 w1 t1 db).2 with chefs := newChefs }).snapshots.find?
            (fun s => s.month == m) = some s := hf2
      rw [upsertSnapshot_fst_eq m n2 t2 _ s hf3, hid]
      rfl
  · rw [show republishTwice db m n1 n2 w1 w2 t1 t2 newChefs
        = createMonthlySnapshot m n2 w2 t2
            { (createMonthlySnapshot m n1 w1 t1 db).2 with chefs := newChefs } from rfl]
    rw [createSnapshot_entries_for_sid, List.map_map]
    have hcomp : ((fun e : SnapEntry => e.chefId) ∘
        (snapEntryFor (createMonthlySnapshot m n2 w2 t2
            { (createMonthlySnapshot m n1 w1 t1 db).2 with chefs := newChefs }).1
          (prevEntries (recalcDB w2 t2
            { (createMonthlySnapshot m n1 w1 t1 db).2 with chefs := newChefs }) m) w2 t2))
        = (fun c : Chef => c.id) := rfl
    rw [hcomp]
    have hperm1 : (chefsByRank (recalcChefs w2 t2
        { (createMonthlySnapshot m n1 w1 t1 db).2 with chefs := newChefs }.chefs)).Perm
        (activeChefs (recalcChefs w2 t2 newChefs)) := by
      unfold chefsByRank
      exact List.mergeSort_perm _ _
    refine (hperm1.map (fun c => c.id)).trans ?_
    rw [activeChefs_recalc, List.map_map]
    have hcomp2 : ((fun c : Chef => c.id) ∘
        applyRanking (rankingOf w2 t2 (activeChefs newChefs))) = (fun c : Chef => c.id) := by
      funext c
      exact applyRanking_id_eq _ c
    rw [hcomp2]

/-- C6 witness: publishing month 2024-05 twice over a concrete store, with
the roster changed from chef a to chef b in between. -/
theorem snapshot_republish_replaces_witness :
    (dbW6.snapshots.map (fun s => s.month)).Nodup ∧
    (((republishTwice dbW6 "2024-05" none none DEFAULT_WEIGHTS DEFAULT_WEIGHTS tW tW
        [chefB]).2.snapshots.filter (fun s => s.month == "2024-05")).length = 1 ∧
    (republishTwice dbW6 "2024-05" none none DEFAULT_WEIGHTS DEFAULT_WEIGHTS tW tW
        [chefB]).1 = (createMonthlySnapshot "2024-05" none DEFAULT_WEIGHTS tW dbW6).1 ∧
    (((republishTwice dbW6 "2024-05" none none DEFAULT_WEIGHTS DEFAULT_WEIGHTS tW tW
        [chefB]).2.entries.filter
        (fun e => e.snapshotId == (republishTwice dbW6 "2024-05" none none DEFAULT_WEIGHTS
          DEFAULT_WEIGHTS tW tW [chefB]).1)).map
      (fun e => e.chefId)).Perm ((activeChefs [chefB]).map (fun c => c.id))) :=
  ⟨by decide, snapshot_republish_replaces dbW6 "2024-05" none none DEFAULT_WEIGHTS
    DEFAULT_WEIGHTS tW tW [chefB] (by decide)⟩

end ChefRanker
